import Mathlib

/-!
Verification of the go-kafka data-plane core: the siesta connection pool
(conn.go), the low-level fetch client (low_level_client.go) and the Avro
wire codec (avro_encoder_decoder.go), shallowly embedded in Lean 4.
Connections are abstracted as natural-number identifiers; byte slices as
lists of naturals; Go (value, error) pairs as products with an Option
error component or as Except values.
-/

namespace GoKafka

/-! ## Connection pool (siesta/conn.go) -/

/-- State of a siesta connectionPool: `size` is the fixed capacity,
`conns` the number of connections ever dialled successfully
(the allocated count), `connections` the FIFO idle queue
(head = front, i.e. the oldest idle connection). -/
structure PoolState where
  size : Nat
  conns : Nat
  connections : List Nat
deriving DecidableEq, Repr

/-- `newConnectionPool(connectStr, size, keepAlive, keepAlivePeriod)`:
starts with zero allocated connections and an empty idle queue. -/
def newConnectionPool (size : Nat) : PoolState :=
  { size := size, conns := 0, connections := [] }

/-- Outcome of a Borrow call in the sequential model. -/
inductive BorrowResult where
  | blocked
  | got (c : Nat)
  | failed (e : String)
deriving DecidableEq, Repr

/-- `connectionPool.Borrow`: while `conns >= size && len(connections) == 0`
the caller waits on the condition variable (modelled as `blocked`, state
unchanged).  Otherwise, if the idle queue is non-empty the head is taken;
else `connect()` is attempted — on success the connection is returned and
`conns` is incremented, on failure the error is returned and the state is
left unchanged.  `dial` is the outcome of `connect()` (resolve + dial),
supplied by the environment. -/
def connectionPool.Borrow (s : PoolState) (dial : Except String Nat) :
    BorrowResult × PoolState :=
  if s.conns ≥ s.size ∧ s.connections = [] then
    (.blocked, s)
  else
    match s.connections with
    | c :: rest => (.got c, { s with connections := rest })
    | [] =>
      match dial with
      | .error e => (.failed e, s)
      | .ok c => (.got c, { s with conns := s.conns + 1 })

/-- `connectionPool.Return`: the connection is appended to the idle tail
only when `len(connections) < conns`; otherwise it is dropped. -/
def connectionPool.Return (s : PoolState) (c : Nat) : PoolState :=
  if s.connections.length < s.conns then
    { s with connections := s.connections ++ [c] }
  else s

/-- One operation applied to the pool: a Borrow (carrying the dial outcome
the environment would produce if a new connection were opened) or a
Return of a connection. -/
inductive PoolOp where
  | borrow (dial : Except String Nat)
  | ret (c : Nat)
deriving Repr

/-- State after one pool operation. -/
def poolStep (s : PoolState) : PoolOp → PoolState
  | .borrow dial => (connectionPool.Borrow s dial).2
  | .ret c => connectionPool.Return s c

/-- State after a sequence of pool operations. -/
def poolRun (s : PoolState) (ops : List PoolOp) : PoolState :=
  ops.foldl poolStep s

/-- The pool capacity invariant: allocated never exceeds capacity and the
idle queue never exceeds the allocated count. -/
def poolInv (s : PoolState) : Prop :=
  s.conns ≤ s.size ∧ s.connections.length ≤ s.conns

/-! ## Low-level fetch client (low_level_client.go) -/

/-- A go_kafka_client.Message: the flat record handed to callers.  Keys
may be absent (nil byte slice); values are byte lists. -/
structure Message where
  Key : Option (List Nat)
  Value : List Nat
  Topic : String
  Partition : Int
  Offset : Int
deriving DecidableEq, Repr

/-- A sarama message body: key, value and the optional nested message
set produced by compression.  Entries of a set pair the outer
MessageBlock offset with the message body. -/
inductive SMsg : Type where
  | mk : Option (List Nat) → List Nat → Option (List (Int × SMsg)) → SMsg

def SMsg.key : SMsg → Option (List Nat)
  | .mk k _ _ => k

def SMsg.value : SMsg → List Nat
  | .mk _ v _ => v

def SMsg.set : SMsg → Option (List (Int × SMsg))
  | .mk _ _ s => s

/-- A sarama FetchResponseBlock for one partition: the error code
(`0` = ErrNoError) and the message set, each entry pairing the block
offset with the message body. -/
structure FetchResponseBlock where
  Err : Int
  Messages : List (Int × SMsg)

/-- The index computed by the loop in `SaramaClient.filterPartitionData`:
the length of the longest initial run of entries whose offset is strictly
below the requested offset (the loop sets `lowestCorrectIndex = i+1`
while `v.Offset < requestedOffset` and breaks at the first entry at or
above it). -/
def lowestCorrectIndex (requestedOffset : Int) : List (Int × SMsg) → Nat
  | [] => 0
  | m :: rest =>
    if m.1 < requestedOffset then lowestCorrectIndex requestedOffset rest + 1
    else 0

/-- `SaramaClient.filterPartitionData`: reslices the message set from
`lowestCorrectIndex` onward. -/
def filterPartitionData (msgs : List (Int × SMsg)) (requestedOffset : Int) :
    List (Int × SMsg) :=
  msgs.drop (lowestCorrectIndex requestedOffset msgs)

/-- `SaramaClient.collectMessages`: the outer loop over the message set,
appending for a wrapping entry (`message.Msg.Set != nil`) one Message per
inner entry — with the inner entry's offset, key and value — and for a
plain entry a single Message with its own offset, key and value. -/
def collectMessages (msgs : List (Int × SMsg)) (topic : String)
    (partition : Int) : List Message :=
  msgs.foldl
    (fun acc m =>
      match m.2.set with
      | some inner =>
        acc ++ inner.map (fun w =>
          { Key := w.2.key, Value := w.2.value, Topic := topic,
            Partition := partition, Offset := w.1 })
      | none =>
        acc ++ [{ Key := m.2.key, Value := m.2.value, Topic := topic,
                  Partition := partition, Offset := m.1 }])
    []

/-- The per-partition inner loop in `SaramaClient.Fetch`'s response
processing: on error code 0 with a non-empty message set, the messages
variable is overwritten with the collected messages of the filtered set;
on a non-zero error code the error is returned immediately. -/
def processPartitions (offset : Int) (topic : String) :
    List (Int × FetchResponseBlock) → List Message →
    Except Int (List Message)
  | [], acc => .ok acc
  | (partition, data) :: rest, acc =>
    if data.Err = 0 then
      if data.Messages.length > 0 then
        processPartitions offset topic rest
          (collectMessages (filterPartitionData data.Messages offset)
            topic partition)
      else
        processPartitions offset topic rest acc
    else
      .error data.Err

/-- The outer loop over `response.Blocks` in `SaramaClient.Fetch`. -/
def processTopics (offset : Int) :
    List (String × List (Int × FetchResponseBlock)) → List Message →
    Except Int (List Message)
  | [], acc => .ok acc
  | (topic, partitionAndData) :: rest, acc =>
    match processPartitions offset topic partitionAndData acc with
    | .ok acc2 => processTopics offset rest acc2
    | .error e => .error e

/-- The response-processing phase of `SaramaClient.Fetch` (after the
leader was resolved and the fetch request succeeded): a nil response
yields an empty slice; otherwise the blocks are walked as in the source. -/
def saramaFetchProcess
    (response : Option (List (String × List (Int × FetchResponseBlock))))
    (offset : Int) : Except Int (List Message) :=
  match response with
  | none => .ok []
  | some blocks => processTopics offset blocks []

/-- Modelled from the spec: sarama's latest-time offset request constant
(the "backend's latest-time constant"; the sarama library is not under
src/). -/
def saramaLatestOffsets : Int := -1

/-- Modelled from the spec: sarama's earliest-time offset request
constant. -/
def saramaEarliestOffset : Int := -2

/-- Modelled from the spec: siesta's latest-time constant. -/
def siestaLatestTime : Int := -1

/-- Modelled from the spec: siesta's earliest-time constant. -/
def siestaEarliestTime : Int := -2

/-- `SaramaClient.GetAvailableOffset`: maps `"smallest"` to the earliest
constant and anything else to the latest constant, queries the client
(`getOffset` abstracts `client.GetOffset`, returning a Go
(offset, error) pair), and on a query error returns `(-1, nil)` —
discarding the error. -/
def SaramaClient.GetAvailableOffset
    (getOffset : String → Int → Int → Int × Option String)
    (topic : String) (partition : Int) (offsetTime : String) :
    Int × Option String :=
  let time := if offsetTime = "smallest" then saramaEarliestOffset
              else saramaLatestOffsets
  let r := getOffset topic partition time
  match r.2 with
  | some _ => (-1, none)
  | none => (r.1, none)

/-- `SiestaClient.GetAvailableOffset`: maps `"smallest"` to the earliest
constant and anything else to the latest constant, and returns the
connector's (offset, error) pair unchanged. -/
def SiestaClient.GetAvailableOffset
    (connectorGetOffset : String → Int → Int → Int × Option String)
    (topic : String) (partition : Int) (offsetTime : String) :
    Int × Option String :=
  let time := if offsetTime = "smallest" then siestaEarliestTime
              else siestaLatestTime
  connectorGetOffset topic partition time

/-- The marker mapping required by the shared contract, written from the
spec's words for the refinement comparison: `"smallest"` selects the
earliest-time constant, any other marker the latest-time constant. -/
def specMarkerTime (offsetTime : String) : Int :=
  if offsetTime = "smallest" then -2 else -1

/-! ## Avro wire codec (avro_encoder_decoder.go) -/

/-- An Avro schema as the codec uses it: the eight primitive kinds plus
record schemas (name and ordered fields).  Float and double schemas occur
only as entries of the primitive-schema cache; no float values are
modelled. -/
inductive AvroSchema : Type where
  | anull
  | aboolean
  | aint
  | along
  | afloat
  | adouble
  | astring
  | abytes
  | arecord (name : String) (fields : List (String × AvroSchema))

/-- `Schema.GetName()`: the record name for record schemas, the type name
for primitives. -/
def AvroSchema.getName : AvroSchema → String
  | .anull => "null"
  | .aboolean => "boolean"
  | .aint => "int"
  | .along => "long"
  | .afloat => "float"
  | .adouble => "double"
  | .astring => "string"
  | .abytes => "bytes"
  | .arecord name _ => name

/-- An Avro datum value.  String and bytes payloads are byte lists (the
writer emits a string as its UTF-8 bytes; the byte-level view is what the
wire format determines).  Records carry their schema, as go-avro's
GenericRecord does. -/
inductive AvroValue : Type where
  | vnull
  | vboolean (b : Bool)
  | vint (n : Int)
  | vlong (n : Int)
  | vstring (s : List Nat)
  | vbytes (bs : List Nat)
  | vrecord (schema : AvroSchema) (fields : List (String × AvroValue))

/-- go-avro's GenericRecord: a named record schema plus field values. -/
structure GenericRecord where
  schema : AvroSchema
  fields : List (String × AvroValue)

/-- The zig-zag mapping used by Avro for int/long: nonnegative `i` maps
to `2i`, negative `i` to `-2i - 1`. -/
def zigzag (i : Int) : Nat :=
  if 0 ≤ i then (2 * i).toNat else (-(2 * i) - 1).toNat

/-- Inverse of `zigzag`. -/
def unzigzag (n : Nat) : Int :=
  if n % 2 = 0 then (n / 2 : Nat) else -((n / 2 : Nat) : Int) - 1

/-- Base-128 varint encoding, least-significant group first, high bit set
on every byte except the last. -/
def varintEncode (n : Nat) : List Nat :=
  if h : n < 128 then [n]
  else (n % 128 + 128) :: varintEncode (n / 128)
decreasing_by exact Nat.div_lt_self (by omega) (by omega)

/-- Base-128 varint decoding; returns the value and the remaining bytes. -/
def varintDecode : List Nat → Option (Nat × List Nat)
  | [] => none
  | b :: rest =>
    if b < 128 then some (b, rest)
    else
      match varintDecode rest with
      | some (m, rest2) => some (b - 128 + 128 * m, rest2)
      | none => none

/-- Field lookup in a generic record (`record.Get(name)`): the first
binding for the name, if any. -/
def lookupField (fields : List (String × AvroValue)) (name : String) :
    Option AvroValue :=
  match fields.find? (fun f => f.1 = name) with
  | some f => some f.2
  | none => none

mutual

/-- Modelled from the spec: go-avro's BinaryEncoder / GenericDatumWriter
(the go-avro library is not under src/) — the standard Avro binary
encoding the spec's "binary-encoded payload" refers to.  Null is empty;
boolean one byte; int/long zig-zag varints; string/bytes a zig-zag varint
length followed by the raw bytes; a record the concatenation of its field
encodings in schema field order, each field value fetched from the record
by name.  `none` models a write error (value does not fit the schema;
float values are not modelled). -/
def writeDatum : AvroSchema → AvroValue → Option (List Nat)
  | .anull, .vnull => some []
  | .aboolean, .vboolean b => some [if b then 1 else 0]
  | .aint, .vint n => some (varintEncode (zigzag n))
  | .along, .vlong n => some (varintEncode (zigzag n))
  | .astring, .vstring s => some (varintEncode (zigzag s.length) ++ s)
  | .abytes, .vbytes bs => some (varintEncode (zigzag bs.length) ++ bs)
  | .arecord _ sfields, .vrecord _ vfields => writeFields sfields vfields
  | _, _ => none

/-- Writes the schema's fields in order, looking each value up by name. -/
def writeFields : List (String × AvroSchema) → List (String × AvroValue) →
    Option (List Nat)
  | [], _ => some []
  | (fname, fschema) :: rest, vfields =>
    match lookupField vfields fname with
    | none => none
    | some v =>
      match writeDatum fschema v with
      | none => none
      | some b =>
        match writeFields rest vfields with
        | none => none
        | some bs => some (b ++ bs)

end

mutual

/-- Modelled from the spec: go-avro's BinaryDecoder / GenericDatumReader —
reads one datum of the given schema from the front of the byte list,
returning the value and the remaining bytes, or `none` on a malformed
input. -/
def readDatum : AvroSchema → List Nat → Option (AvroValue × List Nat)
  | .anull, bs => some (.vnull, bs)
  | .aboolean, [] => none
  | .aboolean, b :: bs =>
    if b = 0 then some (.vboolean false, bs)
    else if b = 1 then some (.vboolean true, bs)
    else none
  | .aint, bs =>
    match varintDecode bs with
    | some (n, rest) => some (.vint (unzigzag n), rest)
    | none => none
  | .along, bs =>
    match varintDecode bs with
    | some (n, rest) => some (.vlong (unzigzag n), rest)
    | none => none
  | .astring, bs =>
    match varintDecode bs with
    | some (n, rest) =>
      let len := unzigzag n
      if 0 ≤ len ∧ len.toNat ≤ rest.length then
        some (.vstring (rest.take len.toNat), rest.drop len.toNat)
      else none
    | none => none
  | .abytes, bs =>
    match varintDecode bs with
    | some (n, rest) =>
      let len := unzigzag n
      if 0 ≤ len ∧ len.toNat ≤ rest.length then
        some (.vbytes (rest.take len.toNat), rest.drop len.toNat)
      else none
    | none => none
  | .afloat, _ => none
  | .adouble, _ => none
  | .arecord name sfields, bs =>
    match readFields sfields bs with
    | some (vfields, rest) =>
      some (.vrecord (.arecord name sfields) vfields, rest)
    | none => none

/-- Reads the schema's fields in order, producing bindings in schema
order. -/
def readFields : List (String × AvroSchema) → List Nat →
    Option (List (String × AvroValue) × List Nat)
  | [], bs => some ([], bs)
  | (fname, fschema) :: rest, bs =>
    match readDatum fschema bs with
    | some (v, bs2) =>
      match readFields rest bs2 with
      | some (vfields, bs3) => some ((fname, v) :: vfields, bs3)
      | none => none
    | none => none

end

mutual

/-- A value conforms to a schema when it is a datum of exactly that
shape; a record value must carry the record schema itself and list its
fields in schema order, and the schema's field names must be distinct
(Avro requires record field names to be unique). -/
inductive Conforms : AvroSchema → AvroValue → Prop where
  | cnull : Conforms .anull .vnull
  | cboolean (b : Bool) : Conforms .aboolean (.vboolean b)
  | cint (n : Int) : Conforms .aint (.vint n)
  | clong (n : Int) : Conforms .along (.vlong n)
  | cstring (s : List Nat) : Conforms .astring (.vstring s)
  | cbytes (bs : List Nat) : Conforms .abytes (.vbytes bs)
  | crecord (name : String) (sfields : List (String × AvroSchema))
      (vfields : List (String × AvroValue)) :
      (sfields.map Prod.fst).Nodup →
      ConformsFields sfields vfields →
      Conforms (.arecord name sfields)
        (.vrecord (.arecord name sfields) vfields)

/-- Field lists conform position-wise: the same names in the same order,
each value conforming to its schema. -/
inductive ConformsFields : List (String × AvroSchema) →
    List (String × AvroValue) → Prop where
  | nil : ConformsFields [] []
  | cons (fname : String) (fschema : AvroSchema) (v : AvroValue)
      (srest : List (String × AvroSchema))
      (vrest : List (String × AvroValue)) :
      Conforms fschema v → ConformsFields srest vrest →
      ConformsFields ((fname, fschema) :: srest) ((fname, v) :: vrest)

end

/-- A Go `interface{}` value as the codec's entry points see it: the nil
interface, the kinds the schema-lookup helper knows, a possibly-nil
`GenericRecord` pointer, and anything else. -/
inductive GoValue : Type where
  | goNilInterface
  | goBool (b : Bool)
  | goInt32 (n : Int)
  | goInt64 (n : Int)
  | goFloat32
  | goFloat64
  | goString (s : List Nat)
  | goBytes (bs : List Nat)
  | goRecordPtr (r : Option GenericRecord)
  | goOther

/-- Whether a `GoValue` matches the `*avro.GenericRecord` case of the
type switch in `Encode` (a nil pointer of that type still matches). -/
def GoValue.isGenericRecordPtr : GoValue → Bool
  | .goRecordPtr _ => true
  | _ => false

/-- The primitive-schema cache built by `NewKafkaAvroEncoder` via
`createPrimitiveSchema`: the eight fixed primitive kinds, keyed by the
names used in the source. -/
def primitiveSchemas : String → Option AvroSchema
  | "Null" => some .anull
  | "Boolean" => some .aboolean
  | "Int" => some .aint
  | "Long" => some .along
  | "Float" => some .afloat
  | "Double" => some .adouble
  | "String" => some .astring
  | "Bytes" => some .abytes
  | _ => none

/-- `KafkaAvroEncoder.getSchema`: nil interface maps to the null schema,
each supported primitive kind to its cached schema, a non-nil generic
record to its own schema.  `none` models the panic branch (the
"Unsupported Avro type" panic for unknown kinds, and the nil-pointer
dereference of `t.Schema()` for a nil record pointer). -/
def KafkaAvroEncoder.getSchema : GoValue → Option AvroSchema
  | .goNilInterface => primitiveSchemas "Null"
  | .goBool _ => primitiveSchemas "Boolean"
  | .goInt32 _ => primitiveSchemas "Int"
  | .goInt64 _ => primitiveSchemas "Long"
  | .goFloat32 => primitiveSchemas "Float"
  | .goFloat64 => primitiveSchemas "Double"
  | .goString _ => primitiveSchemas "String"
  | .goBytes _ => primitiveSchemas "Bytes"
  | .goRecordPtr (some r) => some r.schema
  | .goRecordPtr none => none
  | .goOther => none

/-- `uint32(id)` for a Go `int32` id: reduction modulo 2^32. -/
def int32ToUint32 (i : Int) : Nat := (i % 2 ^ 32).toNat

/-- `binary.BigEndian.PutUint32`: the four big-endian bytes of a 32-bit
value. -/
def uint32BytesBE (n : Nat) : List Nat :=
  [n / 2 ^ 24 % 256, n / 2 ^ 16 % 256, n / 2 ^ 8 % 256, n % 256]

/-- `binary.BigEndian.Uint32`: the value of the first four bytes of a
list, big-endian (only used when at least four bytes are present). -/
def uint32FromBE (bs : List Nat) : Nat :=
  match bs with
  | b0 :: b1 :: b2 :: b3 :: _ =>
    ((b0 * 256 + b1) * 256 + b2) * 256 + b3
  | _ => 0

/-- `int32(n)` for a 32-bit unsigned `n`: two's-complement
reinterpretation. -/
def int32OfUint32 (n : Nat) : Int :=
  if n < 2 ^ 31 then (n : Int) else (n : Int) - 2 ^ 32

/-- Result of `KafkaAvroEncoder.Encode`: a Go `([]byte, error)` pair,
with `ok none` standing for a nil byte slice and nil error, plus a
constructor for the panic outcome of the schema-lookup helper. -/
inductive EncodeResult where
  | ok (bs : Option (List Nat))
  | err (msg : String)
  | panicked
deriving DecidableEq, Repr

/-- `KafkaAvroEncoder.Encode`: the type switch accepts only the
`*avro.GenericRecord` case — a nil record pointer yields `(nil, nil)`;
any other kind yields the "*GenericRecord is expected" error.  For a
non-nil record: subject is the schema name with "-value" appended, the
schema (via `getSchema`) is registered, a registration error is returned,
and otherwise the output is the magic byte, the id as four big-endian
bytes of `uint32(id)`, and the binary-encoded payload.  The write error
of go-avro's datum writer is discarded by the source, so a failed write
(impossible for a conforming record) leaves an empty payload here.
`register` abstracts `schemaRegistry.Register`. -/
def KafkaAvroEncoder.Encode
    (register : String → AvroSchema → Except String Int)
    (obj : GoValue) : EncodeResult :=
  match obj with
  | .goRecordPtr none => .ok none
  | .goRecordPtr (some record) =>
    let subject := record.schema.getName ++ "-value"
    match KafkaAvroEncoder.getSchema (.goRecordPtr (some record)) with
    | none => .panicked
    | some schema =>
      match register subject schema with
      | .error e => .err e
      | .ok id =>
        let payload :=
          (writeDatum schema (.vrecord record.schema record.fields)).getD []
        .ok (some ([0] ++ uint32BytesBE (int32ToUint32 id) ++ payload))
  | _ => .err "*GenericRecord is expected"

/-- A value returned by `KafkaAvroDecoder.Decode`: either the raw
remaining bytes (bytes-schema bypass) or a decoded Avro datum. -/
inductive DecodedValue where
  | rawBytes (bs : List Nat)
  | avroValue (v : AvroValue)

/-- Result of `KafkaAvroDecoder.Decode`: a Go `(interface{}, error)`
pair, with `ok none` for the nil-input case, plus a constructor for the
out-of-bounds slice-index panics. -/
inductive DecodeResult where
  | ok (v : Option DecodedValue)
  | err (msg : String)
  | panicked

/-- `KafkaAvroDecoder.Decode`: nil input yields `(nil, nil)`.  Otherwise
`bytes[0]` is read (out of range on an empty non-nil slice), a nonzero
magic byte yields the "Unknown magic byte!" error, then
`binary.BigEndian.Uint32(bytes[1:])` is read (out of range when fewer
than four bytes follow the magic byte), the schema is resolved via the
registry, a bytes schema returns `bytes[5:]` verbatim, and any other
schema is decoded from `bytes[5:]` by the datum reader (`getByID`
abstracts `schemaRegistry.GetByID`; a reader failure surfaces as an
error). -/
def KafkaAvroDecoder.Decode
    (getByID : Int → Except String AvroSchema)
    (input : Option (List Nat)) : DecodeResult :=
  match input with
  | none => .ok none
  | some bs =>
    match bs with
    | [] => .panicked
    | b0 :: rest =>
      if b0 ≠ 0 then .err "Unknown magic byte!"
      else if rest.length < 4 then .panicked
      else
        let id := int32OfUint32 (uint32FromBE rest)
        match getByID id with
        | .error e => .err e
        | .ok schema =>
          match schema with
          | .abytes => .ok (some (.rawBytes (bs.drop 5)))
          | _ =>
            match readDatum schema (bs.drop 5) with
            | some (value, _) => .ok (some (.avroValue value))
            | none => .err "avro decoding error"

/-! ## Theorems: connection pool -/

/-- Every single pool operation preserves the capacity invariant. -/
theorem poolInv_step (s : PoolState) (op : PoolOp) (h : poolInv s) :
    poolInv (poolStep s op) := by
  obtain ⟨h1, h2⟩ := h
  cases op with
  | borrow dial =>
    show poolInv (connectionPool.Borrow s dial).2
    unfold connectionPool.Borrow
    split
    · exact ⟨h1, h2⟩
    next hnb =>
      split
      next c rest hconn =>
        rw [hconn] at h2
        simp only [List.length_cons] at h2
        exact ⟨h1, Nat.le_of_succ_le h2⟩
      next hconn =>
        have hcap : s.conns < s.size := by
          by_contra hge
          exact hnb ⟨Nat.le_of_not_lt hge, hconn⟩
        split
        · exact ⟨h1, h2⟩
        · exact ⟨hcap, Nat.le_succ_of_le h2⟩
  | ret c =>
    show poolInv (connectionPool.Return s c)
    unfold connectionPool.Return
    split
    next hroom =>
      refine ⟨h1, ?_⟩
      show (s.connections ++ [c]).length ≤ s.conns
      simp only [List.length_append, List.length_cons, List.length_nil]
      omega
    · exact ⟨h1, h2⟩

/-- C1: starting from a pool of capacity `size` with nothing allocated,
after every sequence of Borrow and Return operations — Borrow dialling a
new connection only when the idle queue is empty and `allocated <
capacity`, and Return enqueueing only when `len(idle) < allocated` — the
state satisfies `allocated ≤ capacity` and `len(idle) ≤ allocated`; in
particular a double Return never inflates the idle queue beyond the
allocated count. -/
theorem pool_capacity_invariant (size : Nat) (ops : List PoolOp) :
    poolInv (poolRun (newConnectionPool size) ops) := by
  have key : ∀ (l : List PoolOp) (s : PoolState),
      poolInv s → poolInv (poolRun s l) := by
    intro l
    induction l with
    | nil => intro s h; exact h
    | cons op rest ih =>
      intro s h
      exact ih (poolStep s op) (poolInv_step s op h)
  exact key ops (newConnectionPool size)
    ⟨Nat.zero_le _, by simp [newConnectionPool]⟩

/-- C8: when Borrow attempts to open a new connection (idle queue empty,
allocated below capacity) and the dial fails, the error is returned to
the caller and the pool state is completely unchanged — no capacity slot
is consumed. -/
theorem borrow_dial_failure_unchanged (s : PoolState) (e : String)
    (hidle : s.connections = []) (hcap : s.conns < s.size) :
    connectionPool.Borrow s (.error e) = (.failed e, s) := by
  unfold connectionPool.Borrow
  rw [if_neg (by rw [hidle]; omega)]
  rw [hidle]

/-- Witness for C8 at a concrete pool of capacity 2. -/
theorem borrow_dial_failure_unchanged_witness :
    connectionPool.Borrow (newConnectionPool 2) (.error "connection refused") =
      (.failed "connection refused", newConnectionPool 2) :=
  borrow_dial_failure_unchanged (newConnectionPool 2) "connection refused"
    rfl (by decide)

/-! ## Theorems: fetch pipeline -/

/-- The index loop of `filterPartitionData` computes the length of the
longest prefix of entries strictly below the requested offset, so the
reslice is a `dropWhile`. -/
theorem filterPartitionData_eq_dropWhile (msgs : List (Int × SMsg))
    (req : Int) :
    filterPartitionData msgs req =
      msgs.dropWhile (fun m => decide (m.1 < req)) := by
  induction msgs with
  | nil => rfl
  | cons m rest ih =>
    by_cases h : m.1 < req
    · simp only [filterPartitionData, lowestCorrectIndex, if_pos h,
        List.dropWhile_cons, decide_eq_true h, if_true]
      simpa [filterPartitionData] using ih
    · simp [filterPartitionData, lowestCorrectIndex, if_neg h,
        List.dropWhile_cons, h]

/-- On a batch whose offsets are nondecreasing, dropping the
strictly-below-offset prefix is the same as filtering out every entry
strictly below the offset. -/
theorem dropWhile_eq_filter_of_sorted (msgs : List (Int × SMsg)) (req : Int)
    (hsorted : msgs.Pairwise (fun a b => a.1 ≤ b.1)) :
    msgs.dropWhile (fun m => decide (m.1 < req)) =
      msgs.filter (fun m => decide (req ≤ m.1)) := by
  induction msgs with
  | nil => rfl
  | cons m rest ih =>
    rcases List.pairwise_cons.mp hsorted with ⟨hhead, htail⟩
    by_cases h : m.1 < req
    · simp [List.dropWhile_cons, List.filter_cons, h, Int.not_le.mpr h,
        ih htail]
    · have hge : req ≤ m.1 := Int.not_lt.mp h
      have hrest : rest.filter (fun m => decide (req ≤ m.1)) = rest := by
        apply List.filter_eq_self.mpr
        intro a ha
        exact decide_eq_true (le_trans hge (hhead a ha))
      simp [List.dropWhile_cons, List.filter_cons, h, hge, hrest]

/-- C2 counterexample: a raw batch whose offsets are [8, 5] fetched at
requested offset 7 keeps the entry at offset 5, although 5 < 7 — the
correction drops only a prefix, not every low entry. -/
theorem fetch_offset_correction_cex :
    (saramaFetchProcess
        (some [("test",
          [(0, FetchResponseBlock.mk 0
            [(8, SMsg.mk none [] none), (5, SMsg.mk none [] none)])])])
        7).map (List.map Message.Offset) = .ok [8, 5] ∧ (5 : Int) < 7 :=
  ⟨rfl, by decide⟩

/-- C2 (amended): for every batch whose entry offsets are nondecreasing
(the broker-guaranteed shape) and every requested offset, the
full-protocol backend's fetch processing returns exactly the collected
records of those batch entries whose offset is at least the requested
offset, dropping all entries strictly below it; on arbitrary batches only
the longest strictly-below prefix is dropped. -/
theorem fetch_offset_correction_sorted (topic : String) (partition : Int)
    (msgs : List (Int × SMsg)) (offset : Int)
    (hsorted : msgs.Pairwise (fun a b => a.1 ≤ b.1)) :
    saramaFetchProcess (some [(topic, [(partition, ⟨0, msgs⟩)])]) offset =
      .ok (collectMessages (msgs.filter (fun m => decide (offset ≤ m.1)))
        topic partition) := by
  cases msgs with
  | nil => rfl
  | cons m rest =>
    show processTopics offset [(topic, [(partition, ⟨0, m :: rest⟩)])] [] = _
    unfold processTopics processPartitions
    simp only [if_pos rfl, List.length_cons, if_pos (Nat.succ_pos rest.length)]
    rw [filterPartitionData_eq_dropWhile,
      dropWhile_eq_filter_of_sorted _ _ hsorted]
    rfl

/-- Witness for C2 (amended) at the spec's example: batch offsets
[5, 6, 7, 8] at requested offset 7 yield exactly the records at offsets
7 and 8. -/
theorem fetch_offset_correction_sorted_witness :
    saramaFetchProcess
        (some [("test",
          [(0, FetchResponseBlock.mk 0
            [(5, SMsg.mk none [] none), (6, SMsg.mk none [] none),
             (7, SMsg.mk none [] none), (8, SMsg.mk none [] none)])])])
        7 =
      .ok (collectMessages
        ([(5, SMsg.mk none [] none), (6, SMsg.mk none [] none),
          (7, SMsg.mk none [] none), (8, SMsg.mk none [] none)].filter
            (fun m => decide ((7 : Int) ≤ m.1))) "test" 0) ∧
    (saramaFetchProcess
        (some [("test",
          [(0, FetchResponseBlock.mk 0
            [(5, SMsg.mk none [] none), (6, SMsg.mk none [] none),
             (7, SMsg.mk none [] none), (8, SMsg.mk none [] none)])])])
        7).map (List.map Message.Offset) = .ok [7, 8] :=
  ⟨fetch_offset_correction_sorted "test" 0
    [(5, SMsg.mk none [] none), (6, SMsg.mk none [] none),
     (7, SMsg.mk none [] none), (8, SMsg.mk none [] none)] 7
    (by decide), rfl⟩

/-- The accumulator loop of `collectMessages` is a flat map. -/
theorem collectMessages_foldl (msgs : List (Int × SMsg)) (topic : String)
    (partition : Int) (acc : List Message) :
    msgs.foldl
      (fun acc m =>
        match m.2.set with
        | some inner =>
          acc ++ inner.map (fun w =>
            { Key := w.2.key, Value := w.2.value, Topic := topic,
              Partition := partition, Offset := w.1 })
        | none =>
          acc ++ [{ Key := m.2.key, Value := m.2.value, Topic := topic,
                    Partition := partition, Offset := m.1 }])
      acc =
    acc ++ msgs.flatMap
      (fun m =>
        match m.2.set with
        | some inner =>
          inner.map (fun w =>
            { Key := w.2.key, Value := w.2.value, Topic := topic,
              Partition := partition, Offset := w.1 })
        | none =>
          [{ Key := m.2.key, Value := m.2.value, Topic := topic,
             Partition := partition, Offset := m.1 }]) := by
  induction msgs generalizing acc with
  | nil => simp
  | cons m rest ih =>
    simp only [List.foldl_cons, List.flatMap_cons]
    cases hset : m.2.set with
    | some inner => rw [ih]; simp [hset, List.append_assoc]
    | none => rw [ih]; simp [hset, List.append_assoc]

/-- C5: the collection step turns every batch entry that wraps a nested
inner batch into one record per inner entry — each carrying the inner
entry's own offset, key and value — and every plain entry into exactly one
record with its own offset, key and value, all in batch order; and the
concrete batch holding one wrapper whose inner batch has offsets
[10, 11, 12] yields exactly three flat records at those offsets. -/
theorem collectMessages_unwrap :
    (∀ (msgs : List (Int × SMsg)) (topic : String) (partition : Int),
      collectMessages msgs topic partition =
        msgs.flatMap (fun m =>
          match m.2.set with
          | some inner =>
            inner.map (fun w =>
              { Key := w.2.key, Value := w.2.value, Topic := topic,
                Partition := partition, Offset := w.1 })
          | none =>
            [{ Key := m.2.key, Value := m.2.value, Topic := topic,
               Partition := partition, Offset := m.1 }])) ∧
    collectMessages
        [(20, SMsg.mk none []
          (some [(10, SMsg.mk none [1] none), (11, SMsg.mk none [2] none),
                 (12, SMsg.mk none [3] none)]))] "test" 0 =
      [{ Key := none, Value := [1], Topic := "test", Partition := 0,
         Offset := 10 },
       { Key := none, Value := [2], Topic := "test", Partition := 0,
         Offset := 11 },
       { Key := none, Value := [3], Topic := "test", Partition := 0,
         Offset := 12 }] := by
  constructor
  · intro msgs topic partition
    unfold collectMessages
    rw [collectMessages_foldl]
    simp
  · rfl

/-- C4 counterexample: when the underlying offset query fails, the
full-protocol backend's GetAvailableOffset returns (-1, nil) — the
failure is swallowed — while the connector-based backend returns the
error; the two backends are observably inequivalent on failures. -/
theorem getAvailableOffset_error_cex :
    SaramaClient.GetAvailableOffset (fun _ _ _ => (0, some "query failed"))
        "topic" 0 "largest" = (-1, none) ∧
    SiestaClient.GetAvailableOffset (fun _ _ _ => (0, some "query failed"))
        "topic" 0 "largest" = (0, some "query failed") :=
  ⟨rfl, rfl⟩

/-- C4 (amended): both backends map the marker "smallest" to the same
earliest-time constant and any other marker to the same latest-time
constant, and on a successful offset query both return the same
(offset, nil) pair; but when the underlying query fails, only the
connector-based backend surfaces the error — the full-protocol backend
returns (-1, nil), swallowing it. -/
theorem getAvailableOffset_contract
    (getOffset : String → Int → Int → Int × Option String)
    (topic : String) (partition : Int) (offsetTime : String) :
    saramaEarliestOffset = siestaEarliestTime ∧
    saramaLatestOffsets = siestaLatestTime ∧
    SiestaClient.GetAvailableOffset getOffset topic partition offsetTime =
      getOffset topic partition (specMarkerTime offsetTime) ∧
    ((getOffset topic partition (specMarkerTime offsetTime)).2 = none →
      SaramaClient.GetAvailableOffset getOffset topic partition offsetTime =
        getOffset topic partition (specMarkerTime offsetTime)) ∧
    (∀ e, (getOffset topic partition (specMarkerTime offsetTime)).2 = some e →
      SaramaClient.GetAvailableOffset getOffset topic partition offsetTime =
        (-1, none)) := by
  have harg :
      (if offsetTime = "smallest" then saramaEarliestOffset
       else saramaLatestOffsets) = specMarkerTime offsetTime := by
    unfold specMarkerTime saramaEarliestOffset saramaLatestOffsets
    split <;> rfl
  refine ⟨rfl, rfl, ?_, ?_, ?_⟩
  · unfold SiestaClient.GetAvailableOffset specMarkerTime
    split <;> rfl
  · intro hnone
    unfold SaramaClient.GetAvailableOffset
    rw [harg]
    rcases hr : getOffset topic partition (specMarkerTime offsetTime)
      with ⟨o, err⟩
    have herr : err = none := by rw [hr] at hnone; exact hnone
    subst herr
    simp [hr]
  · intro e he
    unfold SaramaClient.GetAvailableOffset
    rw [harg]
    rcases hr : getOffset topic partition (specMarkerTime offsetTime)
      with ⟨o, err⟩
    have herr : err = some e := by rw [hr] at he; exact he
    subst herr
    simp [hr]

/-- Witness for C4 (amended) at a concrete always-failing query: the
full-protocol backend reports (-1, nil). -/
theorem getAvailableOffset_contract_witness :
    SaramaClient.GetAvailableOffset (fun _ _ _ => (5, some "boom"))
        "topic" 1 "smallest" = (-1, none) :=
  ((getAvailableOffset_contract (fun _ _ _ => (5, some "boom"))
      "topic" 1 "smallest").2.2.2.2) "boom" rfl

/-! ## Theorems: Avro wire codec -/

/-- C7: for every non-nil input whose first byte is nonzero, Decode
returns the "Unknown magic byte!" error, and its result does not depend
on the registry at all — GetByID is never consulted before the magic-byte
check passes. -/
theorem decode_magic_byte_rejection
    (getByID getByID2 : Int → Except String AvroSchema)
    (b0 : Nat) (rest : List Nat) (hb : b0 ≠ 0) :
    KafkaAvroDecoder.Decode getByID (some (b0 :: rest)) =
      .err "Unknown magic byte!" ∧
    KafkaAvroDecoder.Decode getByID (some (b0 :: rest)) =
      KafkaAvroDecoder.Decode getByID2 (some (b0 :: rest)) := by
  simp only [KafkaAvroDecoder.Decode]
  rw [if_pos hb, if_pos hb]
  exact ⟨rfl, rfl⟩

/-- Witness for C7 on the spec's example input [0x01, 0, 0, 0, 1]. -/
theorem decode_magic_byte_rejection_witness :
    KafkaAvroDecoder.Decode (fun _ => .error "registry down")
        (some [1, 0, 0, 0, 1]) = .err "Unknown magic byte!" ∧
    KafkaAvroDecoder.Decode (fun _ => .error "registry down")
        (some [1, 0, 0, 0, 1]) =
      KafkaAvroDecoder.Decode (fun _ => .ok .anull)
        (some [1, 0, 0, 0, 1]) :=
  decode_magic_byte_rejection (fun _ => .error "registry down")
    (fun _ => .ok .anull) 1 [0, 0, 0, 1] (by decide)

/-- C9: Encode yields (nil, nil) for a nil record pointer, and for every
input that is not a generic record it yields the "*GenericRecord is
expected" error value rather than a panic — even though the schema-lookup
helper supports all eight primitive kinds. -/
theorem encode_accepts_only_generic_records
    (register : String → AvroSchema → Except String Int) (v : GoValue) :
    KafkaAvroEncoder.Encode register (.goRecordPtr none) = .ok none ∧
    (v.isGenericRecordPtr = false →
      KafkaAvroEncoder.Encode register v =
        .err "*GenericRecord is expected") ∧
    KafkaAvroEncoder.getSchema .goNilInterface = some .anull ∧
    (∀ b, KafkaAvroEncoder.getSchema (.goBool b) = some .aboolean) ∧
    (∀ n, KafkaAvroEncoder.getSchema (.goInt32 n) = some .aint) ∧
    (∀ n, KafkaAvroEncoder.getSchema (.goInt64 n) = some .along) ∧
    KafkaAvroEncoder.getSchema .goFloat32 = some .afloat ∧
    KafkaAvroEncoder.getSchema .goFloat64 = some .adouble ∧
    (∀ s, KafkaAvroEncoder.getSchema (.goString s) = some .astring) ∧
    (∀ bs, KafkaAvroEncoder.getSchema (.goBytes bs) = some .abytes) := by
  refine ⟨rfl, ?_, rfl, fun _ => rfl, fun _ => rfl, fun _ => rfl, rfl, rfl,
    fun _ => rfl, fun _ => rfl⟩
  intro hv
  cases v <;> first
    | rfl
    | exact absurd hv (by simp [GoValue.isGenericRecordPtr])

/-- Witness for C9 at a boolean input: the error value is returned. -/
theorem encode_accepts_only_generic_records_witness :
    KafkaAvroEncoder.Encode (fun _ _ => .ok 1) (.goBool true) =
      .err "*GenericRecord is expected" :=
  ((encode_accepts_only_generic_records (fun _ _ => .ok 1)
      (.goBool true)).2.1) rfl

/-- C10 counterexample: the 1-byte non-nil input [0x01] — length in the
claimed always-panicking range 1..4 — makes Decode return the
unknown-magic-byte error, not panic: the magic-byte check runs before the
schema-ID read. -/
theorem decode_short_input_cex :
    KafkaAvroDecoder.Decode (fun _ => .error "no registry") (some [1]) =
      .err "Unknown magic byte!" ∧
    KafkaAvroDecoder.Decode (fun _ => .error "no registry") (some [1]) ≠
      DecodeResult.panicked := by
  have h1 : KafkaAvroDecoder.Decode (fun _ => .error "no registry")
      (some [1]) = .err "Unknown magic byte!" := rfl
  exact ⟨h1, by rw [h1]; exact fun h => DecodeResult.noConfusion h⟩

/-- C10 (amended): Decode panics on exactly the non-nil inputs that are
either empty (the magic-byte read at index 0 is out of bounds) or begin
with the 0x00 magic byte while being shorter than 5 bytes (the 4-byte
schema-ID read from bytes 1..4 is out of bounds); a short input with a
nonzero first byte instead returns the unknown-magic-byte error, and all
inputs of length ≥ 5 (and nil inputs) yield error values, not panics. -/
theorem decode_panic_characterization
    (getByID : Int → Except String AvroSchema) (bs : List Nat) :
    KafkaAvroDecoder.Decode getByID (some bs) = .panicked ↔
      bs = [] ∨ (bs.head? = some 0 ∧ bs.length < 5) := by
  cases bs with
  | nil => simp [KafkaAvroDecoder.Decode]
  | cons b0 rest =>
    simp only [KafkaAvroDecoder.Decode]
    by_cases hb : b0 = 0
    · subst hb
      rw [if_neg (by simp)]
      by_cases hlen : rest.length < 4
      · rw [if_pos hlen]
        simp [hlen]
        omega
      · rw [if_neg hlen]
        have hfalse : ¬ ((0 : Nat) :: rest).length < 5 := by
          simp only [List.length_cons]
          omega
        simp only [List.head?_cons, hfalse, and_false, or_false]
        constructor
        · intro h
          exfalso
          revert h
          cases getByID (int32OfUint32 (uint32FromBE rest)) with
          | error e => exact fun h => DecodeResult.noConfusion h
          | ok schema =>
            cases schema <;> simp only <;>
              first
                | exact fun h => DecodeResult.noConfusion h
                | (cases hread : readDatum _ (((0 : Nat) :: rest).drop 5) with
                    | some p => exact fun h => DecodeResult.noConfusion h
                    | none => exact fun h => DecodeResult.noConfusion h)
        · intro h
          exact absurd h (by simp)
    · rw [if_pos hb]
      simp only [List.head?_cons]
      constructor
      · intro h
        exact absurd h (fun h => DecodeResult.noConfusion h)
      · rintro (h | ⟨h, _⟩)
        · exact List.noConfusion h
        · exact absurd (Option.some.inj h) hb

/-- Reading back the four big-endian bytes of a 32-bit value recovers
the value (the framing really is big-endian). -/
theorem uint32FromBE_uint32BytesBE (n : Nat) (hn : n < 2 ^ 32)
    (tail : List Nat) :
    uint32FromBE (uint32BytesBE n ++ tail) = n := by
  simp only [uint32BytesBE, List.cons_append, List.nil_append, uint32FromBE]
  omega

/-- Bound for the uint32 reduction of an id. -/
theorem int32ToUint32_lt (i : Int) : int32ToUint32 i < 2 ^ 32 := by
  unfold int32ToUint32
  have h1 : 0 ≤ i % 2 ^ 32 := Int.emod_nonneg i (by norm_num)
  have h2 : i % 2 ^ 32 < 2 ^ 32 := Int.emod_lt_of_pos i (by norm_num)
  omega

/-- C6: for every non-nil generic record whose schema registration
succeeds with ID `id` and whose payload the datum writer produces,
Encode emits exactly: byte 0 equal to 0x00, bytes 1..4 the unsigned
32-bit big-endian encoding of `id` (reading those four bytes back
big-endian recovers `uint32(id)`), and bytes 5..end the binary-encoded
payload. -/
theorem encode_wire_envelope
    (register : String → AvroSchema → Except String Int)
    (r : GenericRecord) (id : Int) (payload : List Nat)
    (hreg : register (r.schema.getName ++ "-value") r.schema = .ok id)
    (hwrite : writeDatum r.schema (.vrecord r.schema r.fields) =
      some payload) :
    ∃ out,
      KafkaAvroEncoder.Encode register (.goRecordPtr (some r)) =
        .ok (some out) ∧
      out.head? = some 0 ∧
      out.length = 5 + payload.length ∧
      (out.drop 1).take 4 = uint32BytesBE (int32ToUint32 id) ∧
      uint32FromBE (out.drop 1) = int32ToUint32 id ∧
      out.drop 5 = payload := by
  refine ⟨[0] ++ uint32BytesBE (int32ToUint32 id) ++ payload, ?_, ?_, ?_,
    ?_, ?_, ?_⟩
  · simp only [KafkaAvroEncoder.Encode, KafkaAvroEncoder.getSchema, hreg,
      hwrite, Option.getD_some]
  · rfl
  · simp [uint32BytesBE]
    omega
  · rfl
  · have := uint32FromBE_uint32BytesBE (int32ToUint32 id)
      (int32ToUint32_lt id) payload
    simpa [uint32BytesBE] using this
  · simp [uint32BytesBE]

/-- The concrete "User" record schema of the spec's codec example. -/
def userSchema : AvroSchema :=
  .arecord "User" [("name", .astring), ("age", .aint)]

/-- The concrete record {name: "alice", age: 30} ("alice" as its UTF-8
bytes) under `userSchema`. -/
def userRecord : GenericRecord :=
  { schema := userSchema,
    fields := [("name", .vstring [97, 108, 105, 99, 101]),
               ("age", .vint 30)] }

/-- A stable registry for the example: subject "User-value" is ID 1. -/
def userRegister (subject : String) (_ : AvroSchema) :
    Except String Int :=
  if subject = "User-value" then .ok 1 else .error "unknown subject"

/-- The example registry's lookup: ID 1 is the User schema. -/
def userGetByID (id : Int) : Except String AvroSchema :=
  if id = 1 then .ok userSchema else .error "unknown id"

/-- Witness for C6 at the concrete example record: registration yields
ID 1 and the writer produces the example payload. -/
theorem encode_wire_envelope_witness :
    ∃ out,
      KafkaAvroEncoder.Encode userRegister (.goRecordPtr (some userRecord)) =
        .ok (some out) ∧
      out.head? = some 0 ∧
      out.length = 5 + [10, 97, 108, 105, 99, 101, 60].length ∧
      (out.drop 1).take 4 = uint32BytesBE (int32ToUint32 1) ∧
      uint32FromBE (out.drop 1) = int32ToUint32 1 ∧
      out.drop 5 = [10, 97, 108, 105, 99, 101, 60] :=
  encode_wire_envelope userRegister userRecord 1
    [10, 97, 108, 105, 99, 101, 60] rfl
    (by simp [userRecord, userSchema, writeDatum, writeFields, lookupField,
      varintEncode, zigzag])

/-! ## Round-trip lemmas for the binary codec -/

/-- Decoding a varint-encoded value from the front of a byte stream
recovers the value and the trailing bytes. -/
theorem varintDecode_varintEncode (n : Nat) (rest : List Nat) :
    varintDecode (varintEncode n ++ rest) = some (n, rest) := by
  induction n using Nat.strong_induction_on with
  | _ n ih =>
    rw [varintEncode]
    split
    next h => simp [varintDecode, h]
    next h =>
      simp only [List.cons_append, varintDecode, List.append_eq]
      rw [if_neg (by omega),
        ih (n / 128) (Nat.div_lt_self (by omega) (by omega))]
      simp only [Option.some.injEq, Prod.mk.injEq]
      exact ⟨by omega, trivial⟩

/-- The zig-zag mapping is undone by its inverse. -/
theorem unzigzag_zigzag (i : Int) : unzigzag (zigzag i) = i := by
  unfold zigzag unzigzag
  split <;> split <;> omega

/-- For an id in int32 range, the uint32 reduction and the
reinterpretation as int32 cancel. -/
theorem int32OfUint32_int32ToUint32 (i : Int) (h1 : -(2 ^ 31) ≤ i)
    (h2 : i < 2 ^ 31) : int32OfUint32 (int32ToUint32 i) = i := by
  unfold int32OfUint32 int32ToUint32
  split <;> omega

/-- Looking up the name of the head binding returns the head value. -/
theorem lookupField_cons_self (name : String) (v : AvroValue)
    (vrest : List (String × AvroValue)) :
    lookupField ((name, v) :: vrest) name = some v := by
  unfold lookupField
  rw [List.find?_cons_of_pos _ (by simp)]

/-- Looking up a different name skips the head binding. -/
theorem lookupField_cons_ne (hname fname : String) (hv : AvroValue)
    (vrest : List (String × AvroValue)) (hne : hname ≠ fname) :
    lookupField ((hname, hv) :: vrest) fname = lookupField vrest fname := by
  unfold lookupField
  rw [List.find?_cons_of_neg _ (by simp [hne])]

/-- A binding whose name appears in none of the schema fields does not
affect the writer (each field value is fetched by name). -/
theorem writeFields_shadow (srest : List (String × AvroSchema))
    (hname : String) (hv : AvroValue)
    (vrest : List (String × AvroValue))
    (hnotin : hname ∉ srest.map Prod.fst) :
    writeFields srest ((hname, hv) :: vrest) = writeFields srest vrest := by
  induction srest with
  | nil => simp [writeFields]
  | cons f frest ih =>
    obtain ⟨gname, gschema⟩ := f
    simp only [List.map_cons, List.mem_cons, not_or] at hnotin
    obtain ⟨hne, hnotin2⟩ := hnotin
    simp only [writeFields]
    rw [lookupField_cons_ne hname gname hv vrest hne, ih hnotin2]

mutual

/-- A conforming value is always written successfully. -/
theorem writeDatum_total (s : AvroSchema) (v : AvroValue)
    (hc : Conforms s v) : ∃ enc, writeDatum s v = some enc := by
  cases hc with
  | cnull => exact ⟨[], by simp [writeDatum]⟩
  | cboolean b =>
    exact ⟨[if b = true then 1 else 0], by simp [writeDatum]⟩
  | cint n => exact ⟨varintEncode (zigzag n), by simp [writeDatum]⟩
  | clong n => exact ⟨varintEncode (zigzag n), by simp [writeDatum]⟩
  | cstring s =>
    exact ⟨varintEncode (zigzag s.length) ++ s, by simp [writeDatum]⟩
  | cbytes bs =>
    exact ⟨varintEncode (zigzag bs.length) ++ bs, by simp [writeDatum]⟩
  | crecord name sfields vfields hnd hcf =>
    obtain ⟨enc, henc⟩ := writeFields_total sfields vfields hnd hcf
    exact ⟨enc, by simp [writeDatum, henc]⟩

/-- Conforming field lists (with distinct schema field names) are always
written successfully. -/
theorem writeFields_total (sfields : List (String × AvroSchema))
    (vfields : List (String × AvroValue))
    (hnd : (sfields.map Prod.fst).Nodup)
    (hc : ConformsFields sfields vfields) :
    ∃ enc, writeFields sfields vfields = some enc := by
  cases hc with
  | nil => exact ⟨[], by simp [writeFields]⟩
  | cons fname fschema v srest vrest hcv hcf =>
    simp only [List.map_cons, List.nodup_cons] at hnd
    obtain ⟨hnotin, hnd2⟩ := hnd
    obtain ⟨b, hb⟩ := writeDatum_total fschema v hcv
    obtain ⟨bs, hbs⟩ := writeFields_total srest vrest hnd2 hcf
    refine ⟨b ++ bs, ?_⟩
    simp only [writeFields, lookupField_cons_self, hb,
      writeFields_shadow srest fname v vrest hnotin, hbs]

end

mutual

/-- Reading back what the writer produced for a conforming value yields
the value again, consuming exactly the written bytes. -/
theorem readDatum_writeDatum (s : AvroSchema) (v : AvroValue)
    (enc rest : List Nat) (hc : Conforms s v)
    (hw : writeDatum s v = some enc) :
    readDatum s (enc ++ rest) = some (v, rest) := by
  cases hc with
  | cnull =>
    simp only [writeDatum, Option.some.injEq] at hw
    subst hw
    simp [readDatum]
  | cboolean b =>
    simp only [writeDatum, Option.some.injEq] at hw
    subst hw
    cases b <;> simp [readDatum]
  | cint n =>
    simp only [writeDatum, Option.some.injEq] at hw
    subst hw
    simp [readDatum, varintDecode_varintEncode, unzigzag_zigzag]
  | clong n =>
    simp only [writeDatum, Option.some.injEq] at hw
    subst hw
    simp [readDatum, varintDecode_varintEncode, unzigzag_zigzag]
  | cstring s =>
    simp only [writeDatum, Option.some.injEq] at hw
    subst hw
    rw [List.append_assoc]
    simp only [readDatum, varintDecode_varintEncode, unzigzag_zigzag]
    rw [if_pos ⟨Int.natCast_nonneg s.length, by
      simp [Int.toNat_natCast, List.length_append]⟩]
    simp [Int.toNat_natCast, List.take_left, List.drop_left]
  | cbytes bs =>
    simp only [writeDatum, Option.some.injEq] at hw
    subst hw
    rw [List.append_assoc]
    simp only [readDatum, varintDecode_varintEncode, unzigzag_zigzag]
    rw [if_pos ⟨Int.natCast_nonneg bs.length, by
      simp [Int.toNat_natCast, List.length_append]⟩]
    simp [Int.toNat_natCast, List.take_left, List.drop_left]
  | crecord name sfields vfields hnd hcf =>
    simp only [writeDatum] at hw
    simp only [readDatum]
    rw [readFields_writeFields sfields vfields enc rest hnd hcf hw]

/-- Reading back written conforming field lists yields the bindings
again, consuming exactly the written bytes. -/
theorem readFields_writeFields (sfields : List (String × AvroSchema))
    (vfields : List (String × AvroValue)) (enc rest : List Nat)
    (hnd : (sfields.map Prod.fst).Nodup)
    (hc : ConformsFields sfields vfields)
    (hw : writeFields sfields vfields = some enc) :
    readFields sfields (enc ++ rest) = some (vfields, rest) := by
  cases hc with
  | nil =>
    simp only [writeFields, Option.some.injEq] at hw
    subst hw
    simp [readFields]
  | cons fname fschema v srest vrest hcv hcf =>
    simp only [List.map_cons, List.nodup_cons] at hnd
    obtain ⟨hnotin, hnd2⟩ := hnd
    simp only [writeFields, lookupField_cons_self,
      writeFields_shadow srest fname v vrest hnotin] at hw
    cases hwd : writeDatum fschema v with
    | none => rw [hwd] at hw; exact absurd hw (by simp)
    | some b =>
      rw [hwd] at hw
      cases hwf : writeFields srest vrest with
      | none => rw [hwf] at hw; exact absurd hw (by simp)
      | some bs =>
        rw [hwf] at hw
        simp only [Option.some.injEq] at hw
        subst hw
        simp only [readFields, List.append_assoc,
          readDatum_writeDatum fschema v b (bs ++ rest) hcv hwd,
          readFields_writeFields srest vrest bs rest hnd2 hcf hwf]

end

/-- C3: for every non-nil generic record conforming to its (record)
schema and a stable registry — Register yields ID `id` (in int32 range)
for the record's subject and GetByID returns the registered schema for
`id` — decoding the encoder's output succeeds and reproduces the record's
schema and exact field values. -/
theorem codec_round_trip
    (register : String → AvroSchema → Except String Int)
    (getByID : Int → Except String AvroSchema)
    (r : GenericRecord) (id : Int)
    (name : String) (sfields : List (String × AvroSchema))
    (hschema : r.schema = .arecord name sfields)
    (hconf : Conforms r.schema (.vrecord r.schema r.fields))
    (hid1 : -(2 ^ 31) ≤ id) (hid2 : id < 2 ^ 31)
    (hreg : register (r.schema.getName ++ "-value") r.schema = .ok id)
    (hget : getByID id = .ok r.schema) :
    ∃ out,
      KafkaAvroEncoder.Encode register (.goRecordPtr (some r)) =
        .ok (some out) ∧
      KafkaAvroDecoder.Decode getByID (some out) =
        .ok (some (.avroValue (.vrecord r.schema r.fields))) := by
  obtain ⟨payload, hw⟩ := writeDatum_total r.schema
    (.vrecord r.schema r.fields) hconf
  refine ⟨[0] ++ uint32BytesBE (int32ToUint32 id) ++ payload, ?_, ?_⟩
  · simp only [KafkaAvroEncoder.Encode, KafkaAvroEncoder.getSchema, hreg,
      hw, Option.getD_some]
  · have hshape :
        [0] ++ uint32BytesBE (int32ToUint32 id) ++ payload =
          0 :: (uint32BytesBE (int32ToUint32 id) ++ payload) := by
      simp
    rw [hshape]
    have hids :
        int32OfUint32
          (uint32FromBE (uint32BytesBE (int32ToUint32 id) ++ payload)) =
          id := by
      rw [uint32FromBE_uint32BytesBE _ (int32ToUint32_lt id)]
      exact int32OfUint32_int32ToUint32 id hid1 hid2
    have hdrop :
        (0 :: (uint32BytesBE (int32ToUint32 id) ++ payload)).drop 5 =
          payload := by
      simp [uint32BytesBE]
    have hread : readDatum r.schema payload =
        some (.vrecord r.schema r.fields, []) := by
      have h := readDatum_writeDatum r.schema (.vrecord r.schema r.fields)
        payload [] hconf hw
      simpa using h
    rw [hschema] at hread
    simp only [KafkaAvroDecoder.Decode]
    rw [if_neg (by simp),
      if_neg (by simp only [List.length_append, uint32BytesBE,
        List.length_cons, List.length_nil]; omega)]
    simp only [hids, hget, hschema, hdrop, hread]

/-- Witness for C3 at the spec's example: the record
{name: "alice", age: 30} under the "User" schema with registry ID 1
round-trips through Encode and Decode. -/
theorem codec_round_trip_witness :
    ∃ out,
      KafkaAvroEncoder.Encode userRegister
          (.goRecordPtr (some userRecord)) = .ok (some out) ∧
      KafkaAvroDecoder.Decode userGetByID (some out) =
        .ok (some (.avroValue
          (.vrecord userRecord.schema userRecord.fields))) :=
  codec_round_trip userRegister userGetByID userRecord 1 "User"
    [("name", .astring), ("age", .aint)] rfl
    (Conforms.crecord "User" [("name", .astring), ("age", .aint)]
      [("name", .vstring [97, 108, 105, 99, 101]), ("age", .vint 30)]
      (by decide)
      (ConformsFields.cons "name" .astring
        (.vstring [97, 108, 105, 99, 101]) _ _ (Conforms.cstring _)
        (ConformsFields.cons "age" .aint (.vint 30) _ _ (Conforms.cint _)
          ConformsFields.nil)))
    (by norm_num) (by norm_num) rfl rfl

end GoKafka
